import Mathlib

/-! Fishing game: simulation core of `fishgame.js` and `fishgame_mobile.js`.

A shallow embedding of the two React components.  Component state (the `useState`
cells) is a record; every handler, the movement interval and the game loop body are
functions on that record.  State updates queued during one callback are applied in
the order in which the callback issues them, functional updaters (`prev => ...`)
seeing the result of the earlier ones.  Every callback runs against the last committed
state: the values it reads from its closure are those of the state it acts on.

JavaScript numbers are embedded as exact rationals (`ℚ`); fish values, directions and
the score, which only ever hold integers, are `ℤ`.  `Math.random()` is a stream of
draws `rnd : ℕ → ℚ`, consumed in program order.
-/

namespace FishGame

/-! ## Data model -/

/-- One fish object `{ x, y, value, direction, speed }`. -/
structure Fish where
  x : ℚ
  y : ℚ
  value : ℤ
  direction : ℤ
  speed : ℚ
  deriving DecidableEq, Repr

/-- The object held by `hookPosition`. -/
structure Position where
  x : ℚ
  y : ℚ
  deriving DecidableEq, Repr

/-- The `useState` cells shared by both components. -/
structure State where
  gameOver : Bool
  gameStarted : Bool
  score : ℤ
  playerPosition : ℚ
  hookPosition : Position
  fishes : List Fish
  deriving DecidableEq, Repr

/-- The `touchActive` object of `fishgame_mobile.js`. -/
structure TouchActive where
  up : Bool
  down : Bool
  left : Bool
  right : Bool
  deriving DecidableEq, Repr

/-- Initial values of the `useState` cells (both components). -/
def initialState : State :=
  { gameOver := false, gameStarted := false, score := 0, playerPosition := 300,
    hookPosition := { x := 300, y := 100 }, fishes := [] }

/-! ## Entity generator -/

/-- The function `generateFishes`: three `for` loops pushing 8, 6 and 4 fish.  Every fish
literal evaluates `Math.random()` five times, in the order `x, y, value, direction,
speed`; fish `i` of the first loop therefore reads draws `5*i .. 5*i+4`, the second
loop starts at draw 40 and the third at draw 70. -/
def generateFishes (rnd : ℕ → ℚ) : List Fish :=
  (List.range 8).map (fun i =>
    { x := rnd (5 * i) * 580 + 10
      y := 200 + rnd (5 * i + 1) * 50
      value := ⌊rnd (5 * i + 2) * 20⌋ + 10
      direction := if rnd (5 * i + 3) > 0.5 then 1 else -1
      speed := rnd (5 * i + 4) * 0.3 + 0.2 })
  ++ (List.range 6).map (fun i =>
    { x := rnd (40 + 5 * i) * 580 + 10
      y := 300 + rnd (40 + 5 * i + 1) * 50
      value := ⌊rnd (40 + 5 * i + 2) * 30⌋ + 31
      direction := if rnd (40 + 5 * i + 3) > 0.5 then 1 else -1
      speed := rnd (40 + 5 * i + 4) * 0.25 + 0.15 })
  ++ (List.range 4).map (fun i =>
    { x := rnd (70 + 5 * i) * 580 + 10
      y := 450 + rnd (70 + 5 * i + 1) * 50
      value := ⌊rnd (70 + 5 * i + 2) * 40⌋ + 61
      direction := if rnd (70 + 5 * i + 3) > 0.5 then 1 else -1
      speed := rnd (70 + 5 * i + 4) * 0.2 + 0.1 })

/-! ## Game loop body (`render`) -/

/-- The movement part of the `fishes.map` callback: `newX`, the in-place
`fish.direction *= -1`, and the returned object `{ ...fish, x: newX }`. -/
def moveFish (fish : Fish) : Fish :=
  let newX := fish.x + fish.direction * fish.speed
  if newX < 10 ∨ newX > 590 then
    let direction := fish.direction * -1
    { fish with direction := direction, x := fish.x + direction * fish.speed }
  else
    { fish with x := newX }

/-- Exact-arithmetic reading of the comparison `Math.sqrt(s) < r`: false when the root is
`NaN` (negative `s`), and otherwise decided on the squares. -/
def sqrtLt (s r : ℚ) : Bool :=
  decide (0 ≤ s) && decide (0 < r) && decide (s < r * r)

/-- The collision test of the `fishes.map` callback: `dx`, `dy`, `distance < 15`, with
`newX` the position after the move. -/
def caught (hookPosition : Position) (fish : Fish) : Bool :=
  let newX := (moveFish fish).x
  let dx := newX - hookPosition.x
  let dy := fish.y - hookPosition.y
  sqrtLt (dx * dx + dy * dy) 15

/-- One call of the `fishes.map` callback on the pending `(gameOver, score)` updates:
a hit queues `setGameOver(true)` and `setScore(prev => prev + fish.value)`. -/
def renderFish (hookPosition : Position) (acc : Bool × ℤ) (fish : Fish) : Bool × ℤ :=
  if caught hookPosition fish then (true, acc.2 + fish.value) else acc

/-- One run of the game-loop effect: the guard `if (gameOver || !gameStarted) return`,
then `render`, whose queued updates are the hits in iteration order followed by
`setFishes(updatedFishes)`. -/
def render (s : State) : State :=
  if s.gameOver || !s.gameStarted then s
  else
    let acc := s.fishes.foldl (renderFish s.hookPosition) (s.gameOver, s.score)
    { s with gameOver := acc.1, score := acc.2, fishes := s.fishes.map moveFish }

/-! ## Lifecycle handlers -/

/-- The handler `handleStart`. -/
def handleStart (rnd : ℕ → ℚ) (s : State) : State :=
  { s with gameStarted := true, gameOver := false, score := 0,
           hookPosition := { x := s.playerPosition, y := 100 },
           fishes := generateFishes rnd }

/-- The handler `handleRestart`. -/
def handleRestart (s : State) : State :=
  { s with gameStarted := false, gameOver := false, score := 0,
           hookPosition := { x := s.playerPosition, y := 100 } }

/-- The start command: the "Start Game" button exists only under
`!gameStarted && !gameOver`, and its `onClick` is `handleStart`. -/
def startCommand (rnd : ℕ → ℚ) (s : State) : State :=
  if !s.gameStarted && !s.gameOver then handleStart rnd s else s

/-- The restart command: the "Play Again" button exists only under `gameOver`, and its
`onClick` is `handleRestart`. -/
def restartCommand (s : State) : State :=
  if s.gameOver then handleRestart s else s

/-! ## Keyboard component (`fishgame.js`) -/

/-- The values of `e.key` the listener distinguishes; `other` is any other key. -/
inductive Key where
  | ArrowLeft
  | ArrowRight
  | ArrowUp
  | ArrowDown
  | other
  deriving DecidableEq, Repr

/-- The listener `handleKeyDown` of `fishgame.js`.  The guards read `playerPosition` and
`hookPosition` of the closure; the updaters act on the current cell. -/
def handleKeyDown (key : Key) (s : State) : State :=
  if !s.gameStarted || s.gameOver then s
  else
    let moveDistance : ℚ := 8
    match key with
    | Key.ArrowLeft =>
      if s.playerPosition > 20 then
        { s with playerPosition := max 20 (s.playerPosition - moveDistance),
                 hookPosition := { s.hookPosition with
                                   x := max 20 (s.hookPosition.x - moveDistance) } }
      else s
    | Key.ArrowRight =>
      if s.playerPosition < 580 then
        { s with playerPosition := min 580 (s.playerPosition + moveDistance),
                 hookPosition := { s.hookPosition with
                                   x := min 580 (s.hookPosition.x + moveDistance) } }
      else s
    | Key.ArrowUp =>
      if s.hookPosition.y > 100 then
        { s with hookPosition := { s.hookPosition with y := s.hookPosition.y - moveDistance } }
      else s
    | Key.ArrowDown =>
      if s.hookPosition.y < 550 then
        { s with hookPosition := { s.hookPosition with y := s.hookPosition.y + moveDistance } }
      else s
    | Key.other => s

namespace Keyboard

/-- The state update in the body of the first effect of `fishgame.js`
("Initialize game state"): `setFishes(generateFishes())`. -/
def initEffect (rnd : ℕ → ℚ) (s : State) : State :=
  { s with fishes := generateFishes rnd }

/-- Dependency list `[playerPosition, gameStarted, gameOver, hookPosition]` of that
effect.  React compares `hookPosition` by identity; each handler that replaces the
object also changes its contents or another dependency, so comparing contents decides
the same. -/
def depsChanged (prev next : State) : Bool :=
  prev.playerPosition != next.playerPosition || prev.gameStarted != next.gameStarted
    || prev.gameOver != next.gameOver || prev.hookPosition != next.hookPosition

/-- What a commit from `prev` to `next` leaves after the effects it triggers.  The first
effect runs again when one of its dependencies changed.  Each of them is also a
dependency of the game-loop effect, which is declared later and so runs later in the
same flush: while the game is running, its `setFishes(updatedFishes)` (the next `frame`)
is queued after the regenerated list and replaces it; when the game loop returns at its
guard, the regenerated list stays. -/
def commit (rnd : ℕ → ℚ) (prev next : State) : State :=
  if depsChanged prev next && (next.gameOver || !next.gameStarted) then initEffect rnd next
  else next

/-- State after mounting: the first effect has run once. -/
def mounted (rnd : ℕ → ℚ) : State :=
  initEffect rnd initialState

/-- Events the keyboard component reacts to. -/
inductive Cmd where
  | start
  | restart
  | key (k : Key)
  | frame
  deriving DecidableEq, Repr

/-- The handler of each event. -/
def handle (rnd : ℕ → ℚ) : Cmd → State → State
  | Cmd.start, s => startCommand rnd s
  | Cmd.restart, s => restartCommand s
  | Cmd.key k, s => handleKeyDown k s
  | Cmd.frame, s => render s

/-- One event followed by the commit it causes; `c.2` holds the draws of `Math.random()`
made in the course of it (by `handleStart` or by the first effect, never by both). -/
def step (s : State) (c : Cmd × (ℕ → ℚ)) : State :=
  commit c.2 s (handle c.2 c.1 s)

/-- The events of `n` presses of ArrowDown, each followed by one frame. -/
def pressAndFrame (rnd : ℕ → ℚ) : ℕ → List (Cmd × (ℕ → ℚ))
  | 0 => []
  | n + 1 => (Cmd.key Key.ArrowDown, rnd) :: (Cmd.frame, rnd) :: pressAndFrame rnd n

/-- A sequence of events from a mounted component. -/
def run (rnd : ℕ → ℚ) (cmds : List (Cmd × (ℕ → ℚ))) : State :=
  cmds.foldl step (mounted rnd)

end Keyboard

/-! ## Touch component (`fishgame_mobile.js`) -/

/-- The `direction` argument of the control buttons. -/
inductive Direction where
  | up
  | down
  | left
  | right
  deriving DecidableEq, Repr

/-- State of `MobileFishingGame`: the shared cells and `touchActive`. -/
structure MobileState where
  game : State
  touchActive : TouchActive
  deriving DecidableEq, Repr

namespace Mobile

/-- Initial state of `MobileFishingGame` (it has no mount effect touching the state). -/
def initialState : MobileState :=
  { game := FishGame.initialState,
    touchActive := { up := false, down := false, left := false, right := false } }

/-- The object `{ ...prev, [direction]: active }`. -/
def setTouch (direction : Direction) (active : Bool) (t : TouchActive) : TouchActive :=
  match direction with
  | Direction.up => { t with up := active }
  | Direction.down => { t with down := active }
  | Direction.left => { t with left := active }
  | Direction.right => { t with right := active }

/-- One firing of the `setInterval` callback of the movement effect, under the effect's
guard `if (!gameStarted || gameOver) return`.  The four guards read `touchActive`,
`playerPosition` and `hookPosition.y` of the closure; the updaters are applied to the
cells in the order they are queued. -/
def moveInterval (touchActive : TouchActive) (s : State) : State :=
  if !s.gameStarted || s.gameOver then s
  else
    let moveDistance : ℚ := 5
    let s1 :=
      if touchActive.left && decide (s.playerPosition > 20) then
        { s with playerPosition := max 20 (s.playerPosition - moveDistance),
                 hookPosition := { s.hookPosition with
                                   x := max 20 (s.hookPosition.x - moveDistance) } }
      else s
    let s2 :=
      if touchActive.right && decide (s.playerPosition < 580) then
        { s1 with playerPosition := min 580 (s1.playerPosition + moveDistance),
                  hookPosition := { s1.hookPosition with
                                    x := min 580 (s1.hookPosition.x + moveDistance) } }
      else s1
    let s3 :=
      if touchActive.up && decide (s.hookPosition.y > 100) then
        { s2 with hookPosition := { s2.hookPosition with
                                    y := s2.hookPosition.y - moveDistance } }
      else s2
    if touchActive.down && decide (s.hookPosition.y < 550) then
      { s3 with hookPosition := { s3.hookPosition with y := s3.hookPosition.y + moveDistance } }
    else s3

/-- Events the touch component reacts to.  `touch d a` is `handleTouchStart d` for
`a = true` and `handleTouchEnd d` for `a = false`. -/
inductive Cmd where
  | start (rnd : ℕ → ℚ)
  | restart
  | touch (direction : Direction) (active : Bool)
  | interval
  | frame

/-- One event of the touch component.  The control buttons exist only under
`gameStarted && !gameOver`. -/
def step (s : MobileState) : Cmd → MobileState
  | Cmd.start rnd => { s with game := startCommand rnd s.game }
  | Cmd.restart => { s with game := restartCommand s.game }
  | Cmd.touch d a =>
    if s.game.gameStarted && !s.game.gameOver then
      { s with touchActive := setTouch d a s.touchActive }
    else s
  | Cmd.interval => { s with game := moveInterval s.touchActive s.game }
  | Cmd.frame => { s with game := render s.game }

/-- A sequence of events from the initial state. -/
def run (cmds : List Cmd) : MobileState :=
  cmds.foldl step initialState

end Mobile

/-! ## Predicates used in the statements -/

/-- What one update preserves: the lane bounds, a unit direction and a speed of at
most one half. -/
def Swimming (fish : Fish) : Prop :=
  (10 ≤ fish.x ∧ fish.x ≤ 590) ∧ (fish.direction = -1 ∨ fish.direction = 1) ∧
    (0 ≤ fish.speed ∧ fish.speed ≤ 0.5)

/-- Squared distance between the hook and the position of the fish after its move. -/
def distSq (hookPosition : Position) (fish : Fish) : ℚ :=
  ((moveFish fish).x - hookPosition.x) ^ 2 + (fish.y - hookPosition.y) ^ 2

/-- Vertical hook positions `100 + step * k` with `k ≤ n`. -/
def OnGrid (step : ℚ) (n : ℕ) (y : ℚ) : Prop :=
  ∃ k : ℕ, k ≤ n ∧ y = 100 + step * k

/-- Every fish of the state is `Swimming` and at most at `x = bound`. -/
def Calm (bound : ℚ) (s : State) : Prop :=
  ∀ f ∈ s.fishes, Swimming f ∧ f.x ≤ bound

/-- Keyboard events: a start and its frame, then 57 presses of ArrowDown with a frame
after each; every draw is `0`, which puts all fish at `x = 10`. -/
def deepDive : List (Keyboard.Cmd × (ℕ → ℚ)) :=
  (Keyboard.Cmd.start, fun _ => 0) :: (Keyboard.Cmd.frame, fun _ => 0) ::
    Keyboard.pressAndFrame (fun _ => 0) 57

/-- Keyboard events: a start and its frame, then 14 presses of ArrowDown with a frame
after each; every draw is `1/2`. -/
def catchRun : List (Keyboard.Cmd × (ℕ → ℚ)) :=
  (Keyboard.Cmd.start, fun _ => 1 / 2) :: (Keyboard.Cmd.frame, fun _ => 1 / 2) ::
    Keyboard.pressAndFrame (fun _ => 1 / 2) 14

/-- The fish generated from draws `1/2`, after `n` frames. -/
def halfFishes (n : ℕ) : List Fish :=
  List.replicate 8
      { x := 300 - 7 / 20 * n, y := 225, value := 20, direction := -1, speed := 7 / 20 } ++
    List.replicate 6
      { x := 300 - 11 / 40 * n, y := 325, value := 46, direction := -1, speed := 11 / 40 } ++
    List.replicate 4
      { x := 300 - 1 / 5 * n, y := 475, value := 81, direction := -1, speed := 1 / 5 }

/-- The running state of `catchRun` after `j` presses and the frames up to then. -/
def halfState (j : ℕ) : State :=
  { gameOver := false, gameStarted := true, score := 0, playerPosition := 300,
    hookPosition := { x := 300, y := 100 + 8 * j }, fishes := halfFishes (j + 1) }

/-- The state of the keyboard component after `catchRun`: in its last frame the eight
surface fish were within the catch radius of the hook at `(300, 212)`. -/
def overState : State :=
  { gameOver := true, gameStarted := true, score := 160, playerPosition := 300,
    hookPosition := { x := 300, y := 212 }, fishes := generateFishes (fun _ => 1 / 2) }

/-! # Theorems -/


/-! ## Kinematics -/

theorem moveFish_y (fish : Fish) : (moveFish fish).y = fish.y := by
  unfold moveFish
  dsimp only
  split <;> rfl

theorem moveFish_value (fish : Fish) : (moveFish fish).value = fish.value := by
  unfold moveFish
  dsimp only
  split <;> rfl

theorem moveFish_speed (fish : Fish) : (moveFish fish).speed = fish.speed := by
  unfold moveFish
  dsimp only
  split <;> rfl

theorem moveFish_inside_iff (fish : Fish) :
    ¬ (fish.x + fish.direction * fish.speed < 10 ∨ fish.x + fish.direction * fish.speed > 590) ↔
      (10 ≤ fish.x + fish.direction * fish.speed ∧
        fish.x + fish.direction * fish.speed ≤ 590) := by
  constructor
  · intro h
    constructor
    · by_contra hc
      exact h (Or.inl (lt_of_not_ge hc))
    · by_contra hc
      exact h (Or.inr (lt_of_not_ge hc))
  · rintro ⟨h1, h2⟩ h
    rcases h with h | h <;> linarith

theorem moveFish_x (fish : Fish) :
    (moveFish fish).x =
      (if 10 ≤ fish.x + fish.direction * fish.speed ∧
          fish.x + fish.direction * fish.speed ≤ 590
        then fish.x + fish.direction * fish.speed
        else fish.x - fish.direction * fish.speed) := by
  unfold moveFish
  by_cases h : fish.x + fish.direction * fish.speed < 10 ∨
      fish.x + fish.direction * fish.speed > 590
  · have h' := mt (moveFish_inside_iff fish).mpr (not_not.mpr h)
    simp only [h, h', if_true, if_false]
    push_cast
    ring
  · have h' := (moveFish_inside_iff fish).mp h
    simp only [h, h', if_true, if_false, and_self]

theorem moveFish_direction (fish : Fish) :
    (moveFish fish).direction =
      (if 10 ≤ fish.x + fish.direction * fish.speed ∧
          fish.x + fish.direction * fish.speed ≤ 590
        then fish.direction else -fish.direction) := by
  unfold moveFish
  by_cases h : fish.x + fish.direction * fish.speed < 10 ∨
      fish.x + fish.direction * fish.speed > 590
  · have h' := mt (moveFish_inside_iff fish).mpr (not_not.mpr h)
    simp only [h, h', if_true, if_false]
    ring
  · have h' := (moveFish_inside_iff fish).mp h
    simp only [h, h', if_true, if_false, and_self]

/-- C9: the per-tick update keeps `y`, `value` and `speed`; when the candidate
`x + d*s` lies in `[10, 590]` the fish moves there and keeps its direction, otherwise
its direction becomes `-d` and it moves to `x - d*s`. -/
theorem moveFish_spec (fish : Fish) :
    (moveFish fish).y = fish.y ∧ (moveFish fish).value = fish.value ∧
    (moveFish fish).speed = fish.speed ∧
    (moveFish fish).x =
      (if 10 ≤ fish.x + fish.direction * fish.speed ∧
          fish.x + fish.direction * fish.speed ≤ 590
        then fish.x + fish.direction * fish.speed
        else fish.x - fish.direction * fish.speed) ∧
    (moveFish fish).direction =
      (if 10 ≤ fish.x + fish.direction * fish.speed ∧
          fish.x + fish.direction * fish.speed ≤ 590
        then fish.direction else -fish.direction) :=
  ⟨moveFish_y fish, moveFish_value fish, moveFish_speed fish, moveFish_x fish,
    moveFish_direction fish⟩

theorem moveFish_swimming (fish : Fish) (h : Swimming fish) : Swimming (moveFish fish) := by
  obtain ⟨⟨hlo, hhi⟩, hd, hs0, hs1⟩ := h
  have hs1' : fish.speed ≤ 1 / 2 := by norm_num at hs1; exact hs1
  have hsp := moveFish_speed fish
  have hx := moveFish_x fish
  have hdir := moveFish_direction fish
  refine ⟨?_, ?_, ?_⟩
  · rw [hx]
    split
    · assumption
    · rename_i hout
      rcases hd with hd | hd <;> rw [hd] at hout ⊢ <;> push_cast at hout ⊢
      · constructor
        · linarith
        · by_contra hc
          apply hout
          constructor <;> linarith
      · constructor
        · by_contra hc
          apply hout
          constructor <;> linarith
        · linarith
  · rw [hdir]
    split
    · exact hd
    · rcases hd with hd | hd <;> rw [hd] <;> simp
  · rw [hsp]
    exact ⟨hs0, hs1⟩

theorem iterate_moveFish_swimming (fish : Fish) (h : Swimming fish) (n : ℕ) :
    Swimming (moveFish^[n] fish) := by
  induction n with
  | zero => simpa using h
  | succ k ih =>
    rw [Function.iterate_succ_apply']
    exact moveFish_swimming _ ih

/-- C3: a fish that starts inside `[10, 590]` with direction `-1` or `+1` and a speed
in `[0, 0.5]` is still inside `[10, 590]` after any number of per-tick updates. -/
theorem moveFish_iterate_in_bounds (fish : Fish) (n : ℕ)
    (hx : 10 ≤ fish.x ∧ fish.x ≤ 590)
    (hd : fish.direction = -1 ∨ fish.direction = 1)
    (hs : 0 ≤ fish.speed ∧ fish.speed ≤ 0.5) :
    10 ≤ (moveFish^[n] fish).x ∧ (moveFish^[n] fish).x ≤ 590 :=
  (iterate_moveFish_swimming fish ⟨hx, hd, hs⟩ n).1

/-- Witness for C3: a fish at the right bound heading right at speed one half, after
three updates. -/
theorem moveFish_iterate_in_bounds_witness :
    10 ≤ (moveFish^[3] { x := 590, y := 200, value := 10, direction := 1, speed := 0.5 }).x ∧
    (moveFish^[3] { x := 590, y := 200, value := 10, direction := 1, speed := 0.5 }).x ≤ 590 :=
  moveFish_iterate_in_bounds { x := 590, y := 200, value := 10, direction := 1, speed := 0.5 } 3
    (by norm_num) (by norm_num) (by norm_num)

/-! ## Collision and scoring -/

theorem sqrtLt_iff (s r : ℚ) : sqrtLt s r = true ↔ 0 ≤ s ∧ 0 < r ∧ s < r * r := by
  simp [sqrtLt, and_assoc]

theorem distSq_nonneg (hook : Position) (fish : Fish) : 0 ≤ distSq hook fish := by
  unfold distSq
  positivity

theorem caught_eq_sqrtLt (hook : Position) (fish : Fish) :
    caught hook fish = sqrtLt (distSq hook fish) 15 := by
  unfold caught distSq
  dsimp only
  congr 1
  ring

theorem caught_iff_distSq (hook : Position) (fish : Fish) :
    caught hook fish = true ↔ distSq hook fish < 225 := by
  rw [caught_eq_sqrtLt, sqrtLt_iff]
  constructor
  · rintro ⟨_, _, h⟩
    linarith
  · intro h
    exact ⟨distSq_nonneg hook fish, by norm_num, by linarith⟩

theorem foldl_renderFish (hook : Position) (l : List Fish) (b : Bool) (n : ℤ) :
    l.foldl (renderFish hook) (b, n) =
      (b || l.any (caught hook), n + ((l.filter (caught hook)).map Fish.value).sum) := by
  induction l generalizing b n with
  | nil => simp
  | cons f l ih =>
    rw [List.foldl_cons, renderFish]
    by_cases hc : caught hook f = true
    · simp only [hc, if_true]
      rw [ih]
      simp [hc, add_assoc]
    · have hc' : caught hook f = false := by simpa using hc
      simp only [hc', Bool.false_eq_true, if_false]
      rw [ih]
      simp [hc']

theorem render_running (s : State) (hs : s.gameStarted = true) (ho : s.gameOver = false) :
    render s =
      { s with gameOver := s.fishes.any (caught s.hookPosition),
               score := s.score +
                 ((s.fishes.filter (caught s.hookPosition)).map Fish.value).sum,
               fishes := s.fishes.map moveFish } := by
  unfold render
  simp only [hs, ho, Bool.not_true, Bool.or_self, Bool.false_eq_true, if_false]
  rw [foldl_renderFish]
  simp

theorem floor_mul_bounds (r : ℚ) (n : ℤ) (hn : 0 < n) (h0 : 0 ≤ r) (h1 : r < 1) :
    0 ≤ ⌊r * n⌋ ∧ ⌊r * n⌋ ≤ n - 1 := by
  have hn' : (0 : ℚ) < n := by exact_mod_cast hn
  constructor
  · exact Int.floor_nonneg.mpr (mul_nonneg h0 hn'.le)
  · have : ⌊r * n⌋ < n := by
      rw [Int.floor_lt]
      nlinarith
    omega

theorem generateFishes_eq (rnd : ℕ → ℚ) :
    ∃ a b c : List Fish, generateFishes rnd = a ++ b ++ c ∧
      a.length = 8 ∧ b.length = 6 ∧ c.length = 4 ∧
      (∀ f ∈ a, ∃ i, f.value = ⌊rnd (5 * i + 2) * 20⌋ + 10 ∧
        f.direction = (if rnd (5 * i + 3) > 0.5 then 1 else -1) ∧
        f.speed = rnd (5 * i + 4) * 0.3 + 0.2) ∧
      (∀ f ∈ b, ∃ i, f.value = ⌊rnd (40 + 5 * i + 2) * 30⌋ + 31 ∧
        f.direction = (if rnd (40 + 5 * i + 3) > 0.5 then 1 else -1) ∧
        f.speed = rnd (40 + 5 * i + 4) * 0.25 + 0.15) ∧
      (∀ f ∈ c, ∃ i, f.value = ⌊rnd (70 + 5 * i + 2) * 40⌋ + 61 ∧
        f.direction = (if rnd (70 + 5 * i + 3) > 0.5 then 1 else -1) ∧
        f.speed = rnd (70 + 5 * i + 4) * 0.2 + 0.1) := by
  refine ⟨_, _, _, rfl, by simp, by simp, by simp, ?_, ?_, ?_⟩
  all_goals
    intro f hf
    rw [List.mem_map] at hf
    obtain ⟨i, _, rfl⟩ := hf
    exact ⟨i, rfl, rfl, rfl⟩

/-- C5: for draws in `[0, 1)`, `generateFishes` returns 18 fish; the first 8 have value
in `[10, 29]` and speed in `[0.2, 0.5]`, the next 6 value in `[31, 60]` and speed in
`[0.15, 0.4]`, the last 4 value in `[61, 100]` and speed in `[0.1, 0.3]`; every
direction is `-1` or `+1`. -/
theorem generateFishes_tiers (rnd : ℕ → ℚ) (hrnd : ∀ i, 0 ≤ rnd i ∧ rnd i < 1) :
    (generateFishes rnd).length = 18 ∧
    (∀ f ∈ (generateFishes rnd).take 8,
      (10 ≤ f.value ∧ f.value ≤ 29) ∧ (0.2 ≤ f.speed ∧ f.speed ≤ 0.5)) ∧
    (∀ f ∈ ((generateFishes rnd).drop 8).take 6,
      (31 ≤ f.value ∧ f.value ≤ 60) ∧ (0.15 ≤ f.speed ∧ f.speed ≤ 0.4)) ∧
    (∀ f ∈ (generateFishes rnd).drop 14,
      (61 ≤ f.value ∧ f.value ≤ 100) ∧ (0.1 ≤ f.speed ∧ f.speed ≤ 0.3)) ∧
    (∀ f ∈ generateFishes rnd, f.direction = -1 ∨ f.direction = 1) := by
  obtain ⟨a, b, c, hg, ha, hb, hc, hfa, hfb, hfc⟩ := generateFishes_eq rnd
  have htake : (generateFishes rnd).take 8 = a := by
    rw [hg, List.append_assoc, ← ha, List.take_left']
    rfl
  have hdrop8 : (generateFishes rnd).drop 8 = b ++ c := by
    rw [hg, List.append_assoc, ← ha, List.drop_left']
    rfl
  have hmid : ((generateFishes rnd).drop 8).take 6 = b := by
    rw [hdrop8, ← hb, List.take_left']
    rfl
  have hdrop14 : (generateFishes rnd).drop 14 = c := by
    have : (14 : ℕ) = (a ++ b).length := by simp [ha, hb]
    rw [hg, this, List.drop_left']
    rfl
  have hdir : ∀ q : ℚ, (if q > 0.5 then (1 : ℤ) else -1) = -1 ∨
      (if q > 0.5 then (1 : ℤ) else -1) = 1 := by
    intro q
    split
    · exact Or.inr rfl
    · exact Or.inl rfl
  refine ⟨by simp [hg, ha, hb, hc], ?_, ?_, ?_, ?_⟩
  · rw [htake]
    intro f hf
    obtain ⟨i, hv, _, hsp⟩ := hfa f hf
    have hfl := floor_mul_bounds (rnd (5 * i + 2)) 20 (by norm_num) (hrnd _).1 (hrnd _).2
    have h4 := hrnd (5 * i + 4)
    rw [hv, hsp]
    push_cast at hfl
    refine ⟨⟨by linarith [hfl.1], by linarith [hfl.2]⟩, ?_, ?_⟩ <;> norm_num <;> linarith [h4.1, h4.2]
  · rw [hmid]
    intro f hf
    obtain ⟨i, hv, _, hsp⟩ := hfb f hf
    have hfl := floor_mul_bounds (rnd (40 + 5 * i + 2)) 30 (by norm_num) (hrnd _).1 (hrnd _).2
    have h4 := hrnd (40 + 5 * i + 4)
    rw [hv, hsp]
    push_cast at hfl
    refine ⟨⟨by linarith [hfl.1], by linarith [hfl.2]⟩, ?_, ?_⟩ <;> norm_num <;> linarith [h4.1, h4.2]
  · rw [hdrop14]
    intro f hf
    obtain ⟨i, hv, _, hsp⟩ := hfc f hf
    have hfl := floor_mul_bounds (rnd (70 + 5 * i + 2)) 40 (by norm_num) (hrnd _).1 (hrnd _).2
    have h4 := hrnd (70 + 5 * i + 4)
    rw [hv, hsp]
    push_cast at hfl
    refine ⟨⟨by linarith [hfl.1], by linarith [hfl.2]⟩, ?_, ?_⟩ <;> norm_num <;> linarith [h4.1, h4.2]
  · intro f hf
    rw [hg, List.mem_append, List.mem_append] at hf
    rcases hf with (hf | hf) | hf
    · obtain ⟨i, _, hd, _⟩ := hfa f hf
      rw [hd]
      exact hdir _
    · obtain ⟨i, _, hd, _⟩ := hfb f hf
      rw [hd]
      exact hdir _
    · obtain ⟨i, _, hd, _⟩ := hfc f hf
      rw [hd]
      exact hdir _

/-- Witness for C5: every draw equal to one half. -/
theorem generateFishes_tiers_witness :
    (∀ i : ℕ, (0 : ℚ) ≤ (fun _ => 1 / 2) i ∧ (fun _ => (1 / 2 : ℚ)) i < 1) ∧
    (generateFishes (fun _ => 1 / 2)).length = 18 ∧
    (∀ f ∈ generateFishes (fun _ => 1 / 2), f.direction = -1 ∨ f.direction = 1) :=
  ⟨fun _ => by norm_num,
    (generateFishes_tiers (fun _ => 1 / 2) (fun _ => by norm_num)).1,
    (generateFishes_tiers (fun _ => 1 / 2) (fun _ => by norm_num)).2.2.2.2⟩

/-! ## Input controller: horizontal movement -/

theorem handleKeyDown_running (k : Key) (s : State) (hs : s.gameStarted = true)
    (ho : s.gameOver = false) :
    handleKeyDown k s =
      match k with
      | Key.ArrowLeft =>
        if s.playerPosition > 20 then
          { s with playerPosition := max 20 (s.playerPosition - 8),
                   hookPosition := { s.hookPosition with x := max 20 (s.hookPosition.x - 8) } }
        else s
      | Key.ArrowRight =>
        if s.playerPosition < 580 then
          { s with playerPosition := min 580 (s.playerPosition + 8),
                   hookPosition := { s.hookPosition with x := min 580 (s.hookPosition.x + 8) } }
        else s
      | Key.ArrowUp =>
        if s.hookPosition.y > 100 then
          { s with hookPosition := { s.hookPosition with y := s.hookPosition.y - 8 } }
        else s
      | Key.ArrowDown =>
        if s.hookPosition.y < 550 then
          { s with hookPosition := { s.hookPosition with y := s.hookPosition.y + 8 } }
        else s
      | Key.other => s := by
  unfold handleKeyDown
  simp only [hs, ho, Bool.not_true, Bool.or_self, Bool.false_eq_true, if_false]

theorem moveInterval_x (t : TouchActive) (s : State) (hs : s.gameStarted = true)
    (ho : s.gameOver = false) :
    (Mobile.moveInterval t s).playerPosition =
      (if t.right = true ∧ s.playerPosition < 580 then
        min 580 ((if t.left = true ∧ s.playerPosition > 20 then
          max 20 (s.playerPosition - 5) else s.playerPosition) + 5)
       else (if t.left = true ∧ s.playerPosition > 20 then
          max 20 (s.playerPosition - 5) else s.playerPosition)) ∧
    (Mobile.moveInterval t s).hookPosition.x =
      (if t.right = true ∧ s.playerPosition < 580 then
        min 580 ((if t.left = true ∧ s.playerPosition > 20 then
          max 20 (s.hookPosition.x - 5) else s.hookPosition.x) + 5)
       else (if t.left = true ∧ s.playerPosition > 20 then
          max 20 (s.hookPosition.x - 5) else s.hookPosition.x)) := by
  unfold Mobile.moveInterval
  simp only [hs, ho, Bool.not_true, Bool.or_self, Bool.false_eq_true, if_false,
    Bool.and_eq_true, decide_eq_true_eq]
  constructor <;> split_ifs <;> rfl

/-- C6: in a running game with `hook.x = player.x` and `player.x` in `[20, 580]`, a left
or right key (step 8) and a movement-interval tick under any flags (step 5) keep
`hook.x = player.x` and `player.x` in `[20, 580]`; a left command at `player.x = 20`
and a right command at `player.x = 580` leave both unchanged. -/
theorem horizontal_move_clamped (s : State) (hs : s.gameStarted = true)
    (ho : s.gameOver = false) (hx : s.hookPosition.x = s.playerPosition)
    (hb : 20 ≤ s.playerPosition ∧ s.playerPosition ≤ 580) :
    (∀ k, k = Key.ArrowLeft ∨ k = Key.ArrowRight →
      (handleKeyDown k s).hookPosition.x = (handleKeyDown k s).playerPosition ∧
      20 ≤ (handleKeyDown k s).playerPosition ∧ (handleKeyDown k s).playerPosition ≤ 580) ∧
    (∀ t : TouchActive,
      (Mobile.moveInterval t s).hookPosition.x = (Mobile.moveInterval t s).playerPosition ∧
      20 ≤ (Mobile.moveInterval t s).playerPosition ∧
      (Mobile.moveInterval t s).playerPosition ≤ 580) ∧
    (s.playerPosition = 20 →
      handleKeyDown Key.ArrowLeft s = s ∧
      ∀ t : TouchActive, t.right = false →
        (Mobile.moveInterval t s).playerPosition = s.playerPosition ∧
        (Mobile.moveInterval t s).hookPosition.x = s.hookPosition.x) ∧
    (s.playerPosition = 580 →
      handleKeyDown Key.ArrowRight s = s ∧
      ∀ t : TouchActive, t.left = false →
        (Mobile.moveInterval t s).playerPosition = s.playerPosition ∧
        (Mobile.moveInterval t s).hookPosition.x = s.hookPosition.x) := by
  obtain ⟨hlo, hhi⟩ := hb
  refine ⟨?_, ?_, ?_, ?_⟩
  · intro k hk
    rw [handleKeyDown_running k s hs ho]
    rcases hk with rfl | rfl
    · dsimp only
      split_ifs with h
      · dsimp only
        rw [hx]
        exact ⟨rfl, le_max_left _ _, max_le (by linarith) (by linarith)⟩
      · exact ⟨hx, hlo, hhi⟩
    · dsimp only
      split_ifs with h
      · dsimp only
        rw [hx]
        exact ⟨rfl, le_min (by linarith) (by linarith), min_le_left _ _⟩
      · exact ⟨hx, hlo, hhi⟩
  · intro t
    obtain ⟨hp, hh⟩ := moveInterval_x t s hs ho
    rw [hp, hh, hx]
    refine ⟨rfl, ?_, ?_⟩
    · split_ifs
      · exact le_min (by norm_num) (by linarith [le_max_left (20 : ℚ) (s.playerPosition - 5)])
      · exact le_min (by norm_num) (by linarith)
      · exact le_max_left _ _
      · exact hlo
    · split_ifs
      · exact min_le_left _ _
      · exact min_le_left _ _
      · exact max_le (by linarith) (by linarith)
      · exact hhi
  · intro h20
    constructor
    · rw [handleKeyDown_running _ s hs ho]
      dsimp only
      rw [if_neg (by linarith)]
    · intro t ht
      obtain ⟨hp, hh⟩ := moveInterval_x t s hs ho
      rw [hp, hh]
      simp [ht, h20]
  · intro h580
    constructor
    · rw [handleKeyDown_running _ s hs ho]
      dsimp only
      rw [if_neg (by linarith)]
    · intro t ht
      obtain ⟨hp, hh⟩ := moveInterval_x t s hs ho
      rw [hp, hh]
      simp [ht, h580]

/-- Witness for C6: the running game right after a start from the initial position,
where a left key moves player and hook to 292. -/
theorem horizontal_move_clamped_witness :
    (handleKeyDown Key.ArrowLeft
      { gameOver := false, gameStarted := true, score := 0, playerPosition := 300,
        hookPosition := { x := 300, y := 100 }, fishes := [] }).hookPosition.x =
    (handleKeyDown Key.ArrowLeft
      { gameOver := false, gameStarted := true, score := 0, playerPosition := 300,
        hookPosition := { x := 300, y := 100 }, fishes := [] }).playerPosition :=
  ((horizontal_move_clamped
      { gameOver := false, gameStarted := true, score := 0, playerPosition := 300,
        hookPosition := { x := 300, y := 100 }, fishes := [] }
      rfl rfl rfl (by norm_num)).1 Key.ArrowLeft (Or.inl rfl)).1

/-! ## Lifecycle -/

theorem commit_fields (rnd : ℕ → ℚ) (prev next : State) :
    (Keyboard.commit rnd prev next).gameOver = next.gameOver ∧
    (Keyboard.commit rnd prev next).gameStarted = next.gameStarted ∧
    (Keyboard.commit rnd prev next).score = next.score ∧
    (Keyboard.commit rnd prev next).playerPosition = next.playerPosition ∧
    (Keyboard.commit rnd prev next).hookPosition = next.hookPosition := by
  unfold Keyboard.commit Keyboard.initEffect
  split <;> exact ⟨rfl, rfl, rfl, rfl, rfl⟩

theorem commit_self (rnd : ℕ → ℚ) (s : State) : Keyboard.commit rnd s s = s := by
  simp [Keyboard.commit, Keyboard.depsChanged]

/-- C7: while the game is running the start command changes nothing, in the shared
handler logic, in the keyboard component and in the touch component. -/
theorem start_noop_while_running (rnd : ℕ → ℚ) (s : State) (hs : s.gameStarted = true)
    (ho : s.gameOver = false) :
    startCommand rnd s = s ∧
    Keyboard.step s (Keyboard.Cmd.start, rnd) = s ∧
    ∀ t : TouchActive, Mobile.step { game := s, touchActive := t } (Mobile.Cmd.start rnd) =
      { game := s, touchActive := t } := by
  have h : startCommand rnd s = s := by
    unfold startCommand
    simp [hs, ho]
  refine ⟨h, ?_, ?_⟩
  · unfold Keyboard.step Keyboard.handle
    dsimp only
    rw [h, commit_self]
  · intro t
    unfold Mobile.step
    dsimp only
    rw [h]

/-- Witness for C7: a running game with one fish and score 0. -/
theorem start_noop_while_running_witness :
    startCommand (fun _ => 1 / 2)
      { gameOver := false, gameStarted := true, score := 0, playerPosition := 300,
        hookPosition := { x := 300, y := 148 },
        fishes := [{ x := 40, y := 230, value := 17, direction := 1, speed := 0.3 }] } =
      { gameOver := false, gameStarted := true, score := 0, playerPosition := 300,
        hookPosition := { x := 300, y := 148 },
        fishes := [{ x := 40, y := 230, value := 17, direction := 1, speed := 0.3 }] } :=
  (start_noop_while_running (fun _ => 1 / 2)
      { gameOver := false, gameStarted := true, score := 0, playerPosition := 300,
        hookPosition := { x := 300, y := 148 },
        fishes := [{ x := 40, y := 230, value := 17, direction := 1, speed := 0.3 }] }
      rfl rfl).1

/-! ## Input controller: vertical movement -/

theorem render_hookPosition (s : State) : (render s).hookPosition = s.hookPosition := by
  unfold render
  split <;> rfl

theorem startCommand_hook_y (rnd : ℕ → ℚ) (s : State) :
    (startCommand rnd s).hookPosition.y = 100 ∨
      (startCommand rnd s).hookPosition.y = s.hookPosition.y := by
  unfold startCommand handleStart
  split
  · exact Or.inl rfl
  · exact Or.inr rfl

theorem restartCommand_hook_y (s : State) :
    (restartCommand s).hookPosition.y = 100 ∨
      (restartCommand s).hookPosition.y = s.hookPosition.y := by
  unfold restartCommand handleRestart
  split
  · exact Or.inl rfl
  · exact Or.inr rfl

theorem onGrid_base (step : ℚ) (n : ℕ) : OnGrid step n 100 :=
  ⟨0, Nat.zero_le n, by simp⟩

theorem onGrid_bounds (step : ℚ) (n : ℕ) (y : ℚ) (hstep : 0 ≤ step) (h : OnGrid step n y) :
    100 ≤ y ∧ y ≤ 100 + step * n := by
  obtain ⟨k, hk, rfl⟩ := h
  have hk' : (k : ℚ) ≤ n := by exact_mod_cast hk
  have h0 : (0 : ℚ) ≤ k := Nat.cast_nonneg k
  constructor
  · nlinarith
  · nlinarith

theorem handleKeyDown_hook_y (k : Key) (s : State) (h : OnGrid 8 57 s.hookPosition.y) :
    OnGrid 8 57 (handleKeyDown k s).hookPosition.y := by
  by_cases hrun : s.gameStarted = true ∧ s.gameOver = false
  · rw [handleKeyDown_running k s hrun.1 hrun.2]
    obtain ⟨j, hj, hy⟩ := h
    cases k <;> dsimp only
    · split_ifs <;> exact ⟨j, hj, hy⟩
    · split_ifs <;> exact ⟨j, hj, hy⟩
    · split_ifs with hgt
      · dsimp only
        rw [hy] at hgt ⊢
        have hpos : 0 < j := by
          rcases Nat.eq_zero_or_pos j with h0 | h0
          · subst h0
            norm_num at hgt
          · exact h0
        refine ⟨j - 1, by omega, ?_⟩
        have : ((j - 1 : ℕ) : ℚ) = (j : ℚ) - 1 := by
          rw [Nat.cast_sub hpos]
          simp
        rw [this]
        ring
      · exact ⟨j, hj, hy⟩
    · split_ifs with hlt
      · dsimp only
        rw [hy] at hlt ⊢
        have hj' : (j : ℚ) < 57 := by linarith
        have hj2 : j < 57 := by exact_mod_cast hj'
        refine ⟨j + 1, by omega, ?_⟩
        push_cast
        ring
      · exact ⟨j, hj, hy⟩
    · exact ⟨j, hj, hy⟩
  · have : handleKeyDown k s = s := by
      unfold handleKeyDown
      cases hs : s.gameStarted <;> cases ho : s.gameOver <;> simp_all
    rw [this]
    exact h

theorem keyboard_step_hook_y (s : State) (c : Keyboard.Cmd × (ℕ → ℚ))
    (h : OnGrid 8 57 s.hookPosition.y) : OnGrid 8 57 (Keyboard.step s c).hookPosition.y := by
  unfold Keyboard.step
  rw [(commit_fields _ _ _).2.2.2.2]
  obtain ⟨cmd, rnd⟩ := c
  cases cmd <;> unfold Keyboard.handle <;> dsimp only
  · rcases startCommand_hook_y rnd s with h1 | h1 <;> rw [h1]
    · exact onGrid_base 8 57
    · exact h
  · rcases restartCommand_hook_y s with h1 | h1 <;> rw [h1]
    · exact onGrid_base 8 57
    · exact h
  · exact handleKeyDown_hook_y _ s h
  · rw [render_hookPosition]
    exact h

/-- The vertical range the keyboard component can reach: `hook.y` is `100 + 8 k` with
`k ≤ 57`, hence between 100 and 556, after any sequence of events. -/
theorem keyboard_hook_y_range (rnd : ℕ → ℚ) (cmds : List (Keyboard.Cmd × (ℕ → ℚ))) :
    100 ≤ (Keyboard.run rnd cmds).hookPosition.y ∧
      (Keyboard.run rnd cmds).hookPosition.y ≤ 556 := by
  have key : ∀ (l : List (Keyboard.Cmd × (ℕ → ℚ))) (s : State),
      OnGrid 8 57 s.hookPosition.y → OnGrid 8 57 (l.foldl Keyboard.step s).hookPosition.y := by
    intro l
    induction l with
    | nil => intro s h; exact h
    | cons c l ih =>
      intro s h
      rw [List.foldl_cons]
      exact ih _ (keyboard_step_hook_y s c h)
  have h := onGrid_bounds 8 57 _ (by norm_num)
    (key cmds (Keyboard.mounted rnd) (onGrid_base 8 57))
  constructor
  · exact h.1
  · have h2 := h.2
    norm_num at h2
    exact h2

theorem commit_running (rnd : ℕ → ℚ) (prev next : State) (hs : next.gameStarted = true)
    (ho : next.gameOver = false) : Keyboard.commit rnd prev next = next := by
  simp [Keyboard.commit, hs, ho]

theorem step_arrowDown (s : State) (r : ℕ → ℚ) (hs : s.gameStarted = true)
    (ho : s.gameOver = false) (hy : s.hookPosition.y < 550) :
    Keyboard.step s (Keyboard.Cmd.key Key.ArrowDown, r) =
      { s with hookPosition := { s.hookPosition with y := s.hookPosition.y + 8 } } := by
  unfold Keyboard.step Keyboard.handle
  dsimp only
  rw [handleKeyDown_running _ s hs ho]
  dsimp only
  rw [if_pos hy]
  exact commit_running _ _ _ hs ho

theorem step_frame_no_catch (s : State) (r : ℕ → ℚ) (hs : s.gameStarted = true)
    (ho : s.gameOver = false) (hc : s.fishes.any (caught s.hookPosition) = false) :
    Keyboard.step s (Keyboard.Cmd.frame, r) = { s with fishes := s.fishes.map moveFish } := by
  obtain ⟨go, gs, sc, pp, hp, fs⟩ := s
  dsimp only at hs ho hc
  subst hs ho
  unfold Keyboard.step Keyboard.handle
  dsimp only
  have hf : fs.filter (caught hp) = [] := by
    rw [List.filter_eq_nil_iff]
    intro f hf
    rw [List.any_eq_false] at hc
    exact hc f hf
  rw [render_running _ rfl rfl]
  dsimp only
  rw [hc, hf]
  simp only [List.map_nil, List.sum_nil, add_zero]
  exact commit_running _ _ _ rfl rfl

theorem step_start_mounted (rnd r : ℕ → ℚ) :
    Keyboard.step (Keyboard.mounted rnd) (Keyboard.Cmd.start, r) =
      { gameOver := false, gameStarted := true, score := 0, playerPosition := 300,
        hookPosition := { x := 300, y := 100 }, fishes := generateFishes r } := by
  simp [Keyboard.step, Keyboard.handle, Keyboard.mounted, Keyboard.initEffect, initialState,
    startCommand, handleStart, Keyboard.commit, Keyboard.depsChanged]

theorem moveFish_x_le (f : Fish) (h : Swimming f) : (moveFish f).x ≤ f.x + 1 / 2 := by
  obtain ⟨_, hd, hs0, hs1⟩ := h
  have hs1' : f.speed ≤ 1 / 2 := by norm_num at hs1; exact hs1
  rw [moveFish_x]
  split <;> rcases hd with hd | hd <;> rw [hd] <;> push_cast <;> linarith

theorem not_caught_of_left (hook : Position) (f : Fish) (hx : hook.x = 300)
    (h : (moveFish f).x ≤ 285) : caught hook f = false := by
  cases hc : caught hook f
  · rfl
  · have h1 := (caught_iff_distSq hook f).mp hc
    unfold distSq at h1
    rw [hx] at h1
    nlinarith [sq_nonneg (f.y - hook.y)]

theorem step_frame_calm (s : State) (r : ℕ → ℚ) (b : ℚ) (hs : s.gameStarted = true)
    (ho : s.gameOver = false) (hx : s.hookPosition.x = 300) (hcalm : Calm b s)
    (hb : b + 1 / 2 ≤ 285) :
    Keyboard.step s (Keyboard.Cmd.frame, r) = { s with fishes := s.fishes.map moveFish } ∧
      Calm (b + 1 / 2) { s with fishes := s.fishes.map moveFish } := by
  constructor
  · apply step_frame_no_catch s r hs ho
    rw [List.any_eq_false]
    intro f hf
    have := not_caught_of_left s.hookPosition f hx
      (by linarith [moveFish_x_le f (hcalm f hf).1, (hcalm f hf).2])
    simp [this]
  · intro f hf
    dsimp only at hf
    rw [List.mem_map] at hf
    obtain ⟨g, hg, rfl⟩ := hf
    exact ⟨moveFish_swimming g (hcalm g hg).1,
      by linarith [moveFish_x_le g (hcalm g hg).1, (hcalm g hg).2]⟩

theorem pressAndFrame_dive (r : ℕ → ℚ) (n : ℕ) :
    ∀ (s : State) (j : ℕ) (b : ℚ), s.gameStarted = true → s.gameOver = false →
      s.hookPosition = { x := 300, y := 100 + 8 * j } → Calm b s → j + n ≤ 57 →
      b + n / 2 ≤ 285 →
      ((Keyboard.pressAndFrame r n).foldl Keyboard.step s).gameStarted = true ∧
      ((Keyboard.pressAndFrame r n).foldl Keyboard.step s).gameOver = false ∧
      ((Keyboard.pressAndFrame r n).foldl Keyboard.step s).hookPosition =
        { x := 300, y := 100 + 8 * (j + n : ℕ) } := by
  induction n with
  | zero =>
    intro s j b hs ho hh _ _ _
    exact ⟨hs, ho, by simpa [Keyboard.pressAndFrame] using hh⟩
  | succ n ih =>
    intro s j b hs ho hh hcalm hjn hbn
    obtain ⟨go, gs, sc, pp, hp, fs⟩ := s
    dsimp only at hs ho hh
    subst hs ho hh
    have hj : (j : ℚ) ≤ 56 := by
      have : j ≤ 56 := by omega
      exact_mod_cast this
    have hn0 : (0 : ℚ) ≤ n := Nat.cast_nonneg n
    push_cast at hbn
    simp only [Keyboard.pressAndFrame, List.foldl_cons]
    rw [step_arrowDown _ r rfl rfl (by dsimp only; linarith)]
    dsimp only
    obtain ⟨hstep, hcalm2⟩ := step_frame_calm
      { gameOver := false, gameStarted := true, score := sc, playerPosition := pp,
        hookPosition := { x := 300, y := 100 + 8 * (j : ℚ) + 8 }, fishes := fs }
      r b rfl rfl rfl hcalm (by linarith)
    rw [hstep]
    dsimp only at hcalm2 ⊢
    obtain ⟨h1, h2, h3⟩ := ih
      { gameOver := false, gameStarted := true, score := sc, playerPosition := pp,
        hookPosition := { x := 300, y := 100 + 8 * (j : ℚ) + 8 },
        fishes := fs.map moveFish }
      (j + 1) (b + 1 / 2) rfl rfl
      (by dsimp only; push_cast; ring_nf) hcalm2 (by omega) (by linarith)
    refine ⟨h1, h2, ?_⟩
    rw [h3]
    have : j + 1 + n = j + (n + 1) := by omega
    rw [this]

theorem generateFishes_swimming (rnd : ℕ → ℚ) (hrnd : ∀ i, 0 ≤ rnd i ∧ rnd i < 1) :
    ∀ f ∈ generateFishes rnd, Swimming f := by
  intro f hf
  unfold generateFishes at hf
  rw [List.mem_append, List.mem_append] at hf
  have hdir : ∀ q : ℚ, (if q > 0.5 then (1 : ℤ) else -1) = -1 ∨
      (if q > 0.5 then (1 : ℤ) else -1) = 1 := by
    intro q
    split
    · exact Or.inr rfl
    · exact Or.inl rfl
  rcases hf with (hf | hf) | hf
  · rw [List.mem_map] at hf
    obtain ⟨i, _, rfl⟩ := hf
    have h0 := hrnd (5 * i)
    have h4 := hrnd (5 * i + 4)
    refine ⟨⟨?_, ?_⟩, hdir _, ?_, ?_⟩ <;> dsimp only <;> norm_num <;> linarith [h0.1, h0.2, h4.1, h4.2]
  · rw [List.mem_map] at hf
    obtain ⟨i, _, rfl⟩ := hf
    have h0 := hrnd (40 + 5 * i)
    have h4 := hrnd (40 + 5 * i + 4)
    refine ⟨⟨?_, ?_⟩, hdir _, ?_, ?_⟩ <;> dsimp only <;> norm_num <;> linarith [h0.1, h0.2, h4.1, h4.2]
  · rw [List.mem_map] at hf
    obtain ⟨i, _, rfl⟩ := hf
    have h0 := hrnd (70 + 5 * i)
    have h4 := hrnd (70 + 5 * i + 4)
    refine ⟨⟨?_, ?_⟩, hdir _, ?_, ?_⟩ <;> dsimp only <;> norm_num <;> linarith [h0.1, h0.2, h4.1, h4.2]

theorem generateFishes_zero_calm (sc : ℤ) (pp : ℚ) (hp : Position) (go gs : Bool) :
    Calm 10 { gameOver := go, gameStarted := gs, score := sc, playerPosition := pp,
              hookPosition := hp, fishes := generateFishes (fun _ => 0) } := by
  intro f hf
  refine ⟨generateFishes_swimming (fun _ => 0) (fun _ => by norm_num) f hf, ?_⟩
  dsimp only at hf
  unfold generateFishes at hf
  rw [List.mem_append, List.mem_append] at hf
  rcases hf with (hf | hf) | hf <;>
  · rw [List.mem_map] at hf
    obtain ⟨i, _, rfl⟩ := hf
    norm_num

/-- C2 at its failing input: after `deepDive` (a start, then 57 presses of ArrowDown, a
frame after each event, all fish far from the hook) the keyboard component is still
running and has `hook.y = 556`, which is above 550. -/
theorem keyboard_hook_y_reaches_556 :
    (Keyboard.run (fun _ => 0) deepDive).gameStarted = true ∧
    (Keyboard.run (fun _ => 0) deepDive).gameOver = false ∧
    (Keyboard.run (fun _ => 0) deepDive).hookPosition.y = 556 ∧
    ¬ (Keyboard.run (fun _ => 0) deepDive).hookPosition.y ≤ 550 := by
  unfold Keyboard.run deepDive
  rw [List.foldl_cons, step_start_mounted, List.foldl_cons]
  obtain ⟨hstep, hcalm⟩ := step_frame_calm
    { gameOver := false, gameStarted := true, score := 0, playerPosition := 300,
      hookPosition := { x := 300, y := 100 }, fishes := generateFishes (fun _ => 0) }
    (fun _ => 0) 10 rfl rfl rfl (generateFishes_zero_calm _ _ _ _ _) (by norm_num)
  rw [hstep]
  obtain ⟨h1, h2, h3⟩ := pressAndFrame_dive (fun _ => 0) 57 _ 0 (10 + 1 / 2) rfl rfl
    (by norm_num) hcalm (by norm_num) (by norm_num)
  refine ⟨h1, h2, ?_, ?_⟩
  · rw [h3]
    norm_num
  · rw [h3]
    norm_num

theorem moveInterval_y (t : TouchActive) (s : State) :
    (Mobile.moveInterval t s).hookPosition.y =
      (if s.gameStarted = true ∧ s.gameOver = false then
        (if t.down = true ∧ s.hookPosition.y < 550 then
          (if t.up = true ∧ s.hookPosition.y > 100 then s.hookPosition.y - 5
            else s.hookPosition.y) + 5
         else (if t.up = true ∧ s.hookPosition.y > 100 then s.hookPosition.y - 5
            else s.hookPosition.y))
       else s.hookPosition.y) := by
  unfold Mobile.moveInterval
  cases hs : s.gameStarted <;> cases ho : s.gameOver <;>
    simp only [Bool.not_true, Bool.not_false, Bool.or_self, Bool.or_true, Bool.or_false,
      Bool.true_or, Bool.false_eq_true, if_false, if_true, and_self, and_false, false_and,
      Bool.and_eq_true, decide_eq_true_eq, Bool.true_eq_false]
  split_ifs <;> rfl

theorem moveInterval_hook_y (t : TouchActive) (s : State)
    (h : OnGrid 5 90 s.hookPosition.y) :
    OnGrid 5 90 (Mobile.moveInterval t s).hookPosition.y := by
  rw [moveInterval_y]
  obtain ⟨j, hj, hy⟩ := h
  have hup : s.hookPosition.y > 100 → 0 < j := by
    intro hgt
    rcases Nat.eq_zero_or_pos j with h0 | h0
    · subst h0
      rw [hy] at hgt
      norm_num at hgt
    · exact h0
  have hdown : s.hookPosition.y < 550 → j < 90 := by
    intro hlt
    rw [hy] at hlt
    have : (j : ℚ) < 90 := by linarith
    exact_mod_cast this
  split_ifs with hrun hd hu hu
  · exact ⟨j, hj, by rw [hy]; ring⟩
  · refine ⟨j + 1, by have := hdown hd.2; omega, ?_⟩
    rw [hy]
    push_cast
    ring
  · have hpos := hup hu.2
    refine ⟨j - 1, by omega, ?_⟩
    rw [Nat.cast_sub hpos, hy]
    push_cast
    ring
  · exact ⟨j, hj, hy⟩
  · exact ⟨j, hj, hy⟩

theorem mobile_step_hook_y (s : MobileState) (c : Mobile.Cmd)
    (h : OnGrid 5 90 s.game.hookPosition.y) :
    OnGrid 5 90 (Mobile.step s c).game.hookPosition.y := by
  cases c <;> unfold Mobile.step <;> dsimp only
  · rename_i rnd
    rcases startCommand_hook_y rnd s.game with h1 | h1 <;> rw [h1]
    · exact onGrid_base 5 90
    · exact h
  · rcases restartCommand_hook_y s.game with h1 | h1 <;> rw [h1]
    · exact onGrid_base 5 90
    · exact h
  · split <;> exact h
  · exact moveInterval_hook_y _ _ h
  · rw [render_hookPosition]
    exact h

/-- C10: in the touch component, after any sequence of start, restart, touch, movement
interval and frame events from the initial state, `100 ≤ hook.y ≤ 550`. -/
theorem mobile_hook_y_in_bounds (cmds : List Mobile.Cmd) :
    100 ≤ (Mobile.run cmds).game.hookPosition.y ∧
      (Mobile.run cmds).game.hookPosition.y ≤ 550 := by
  have key : ∀ (l : List Mobile.Cmd) (s : MobileState),
      OnGrid 5 90 s.game.hookPosition.y →
        OnGrid 5 90 (l.foldl Mobile.step s).game.hookPosition.y := by
    intro l
    induction l with
    | nil => intro s h; exact h
    | cons c l ih =>
      intro s h
      rw [List.foldl_cons]
      exact ih _ (mobile_step_hook_y s c h)
  have h := onGrid_bounds 5 90 _ (by norm_num)
    (key cmds Mobile.initialState (onGrid_base 5 90))
  constructor
  · exact h.1
  · have h2 := h.2
    norm_num at h2
    exact h2

/-! ## Restart -/

theorem generateFishes_half : generateFishes (fun _ => 1 / 2) = halfFishes 0 := by
  simp [generateFishes, halfFishes, List.range, List.range.loop, List.replicate]
  norm_num

theorem handleRestart_frame (s : State) :
    (handleRestart s).gameStarted = false ∧ (handleRestart s).gameOver = false ∧
    (handleRestart s).score = 0 ∧
    (handleRestart s).hookPosition = { x := s.playerPosition, y := 100 } ∧
    (handleRestart s).playerPosition = s.playerPosition ∧
    (handleRestart s).fishes = s.fishes :=
  ⟨rfl, rfl, rfl, rfl, rfl, rfl⟩

theorem mobile_restart_keeps_fishes (s : MobileState) (ho : s.game.gameOver = true) :
    (Mobile.step s Mobile.Cmd.restart).game = handleRestart s.game ∧
    (Mobile.step s Mobile.Cmd.restart).game.fishes = s.game.fishes := by
  unfold Mobile.step restartCommand
  simp [ho, handleRestart]

theorem keyboard_restart_step (s : State) (r : ℕ → ℚ) (ho : s.gameOver = true) :
    Keyboard.step s (Keyboard.Cmd.restart, r) =
      { handleRestart s with fishes := generateFishes r } := by
  unfold Keyboard.step Keyboard.handle restartCommand
  simp [ho, Keyboard.commit, Keyboard.depsChanged, Keyboard.initEffect, handleRestart]

theorem map_moveFish_half (n : ℕ) (hn : n ≤ 100) :
    (halfFishes n).map moveFish = halfFishes (n + 1) := by
  have hn' : (n : ℚ) ≤ 100 := by exact_mod_cast hn
  have h0 : (0 : ℚ) ≤ n := Nat.cast_nonneg n
  unfold halfFishes
  simp only [List.map_append, List.map_replicate]
  have key : ∀ (y sp : ℚ) (v : ℤ), 0 ≤ sp → sp ≤ 1 →
      moveFish { x := 300 - sp * n, y := y, value := v, direction := -1, speed := sp } =
        { x := 300 - sp * (n + 1 : ℕ), y := y, value := v, direction := -1, speed := sp } := by
    intro y sp v hsp0 hsp1
    unfold moveFish
    dsimp only
    have hin : ¬ (300 - sp * n + ((-1 : ℤ) : ℚ) * sp < 10 ∨
        300 - sp * n + ((-1 : ℤ) : ℚ) * sp > 590) := by
      push_cast
      rintro (h | h) <;> nlinarith
    rw [if_neg hin]
    congr 1
    push_cast
    ring
  rw [key 225 (7 / 20) 20 (by norm_num) (by norm_num),
    key 325 (11 / 40) 46 (by norm_num) (by norm_num),
    key 475 (1 / 5) 81 (by norm_num) (by norm_num)]

theorem not_caught_of_above (hook : Position) (f : Fish) (h : 15 ≤ f.y - hook.y) :
    caught hook f = false := by
  cases hc : caught hook f
  · rfl
  · have h1 := (caught_iff_distSq hook f).mp hc
    unfold distSq at h1
    nlinarith [sq_nonneg ((moveFish f).x - hook.x)]

theorem halfFishes_no_catch (n j : ℕ) (hj : j ≤ 13) :
    (halfFishes n).any (caught { x := 300, y := 100 + 8 * j }) = false := by
  have hj' : (j : ℚ) ≤ 13 := by exact_mod_cast hj
  rw [List.any_eq_false]
  intro f hf
  have hy : 225 ≤ f.y := by
    unfold halfFishes at hf
    simp only [List.mem_append, List.mem_replicate] at hf
    rcases hf with (⟨_, rfl⟩ | ⟨_, rfl⟩) | ⟨_, rfl⟩ <;> norm_num
  have := not_caught_of_above { x := 300, y := 100 + 8 * j } f (by dsimp only; linarith)
  simp [this]

theorem step_halfState (j : ℕ) (hj : j < 13) :
    Keyboard.step (Keyboard.step (halfState j) (Keyboard.Cmd.key Key.ArrowDown, fun _ => 1 / 2))
      (Keyboard.Cmd.frame, fun _ => 1 / 2) = halfState (j + 1) := by
  have hj' : (j : ℚ) < 13 := by exact_mod_cast hj
  rw [step_arrowDown (halfState j) _ rfl rfl (by unfold halfState; dsimp only; linarith)]
  rw [step_frame_no_catch _ _ rfl rfl]
  · unfold halfState
    dsimp only
    rw [map_moveFish_half (j + 1) (by omega)]
    congr 2
    push_cast
    ring
  · unfold halfState
    dsimp only
    have h := halfFishes_no_catch (j + 1) (j + 1) (by omega)
    have e : (100 : ℚ) + 8 * ((j + 1 : ℕ) : ℚ) = 100 + 8 * (j : ℚ) + 8 := by
      push_cast
      ring
    rw [e] at h
    exact h

theorem pressAndFrame_halfState (n : ℕ) :
    ∀ j, j + n ≤ 13 →
      (Keyboard.pressAndFrame (fun _ => 1 / 2) n).foldl Keyboard.step (halfState j) =
        halfState (j + n) := by
  induction n with
  | zero => intro j _; rfl
  | succ n ih =>
    intro j hj
    simp only [Keyboard.pressAndFrame, List.foldl_cons]
    rw [step_halfState j (by omega), ih (j + 1) (by omega)]
    congr 1
    omega

theorem pressAndFrame_succ_foldl (r : ℕ → ℚ) (n : ℕ) :
    ∀ s, (Keyboard.pressAndFrame r (n + 1)).foldl Keyboard.step s =
      Keyboard.step (Keyboard.step ((Keyboard.pressAndFrame r n).foldl Keyboard.step s)
        (Keyboard.Cmd.key Key.ArrowDown, r)) (Keyboard.Cmd.frame, r) := by
  induction n with
  | zero => intro s; rfl
  | succ n ih =>
    intro s
    rw [Keyboard.pressAndFrame, List.foldl_cons, List.foldl_cons, ih]
    rfl

theorem catchRun_eq_overState : Keyboard.run (fun _ => 1 / 2) catchRun = overState := by
  unfold Keyboard.run catchRun
  rw [List.foldl_cons, step_start_mounted, List.foldl_cons, generateFishes_half]
  have hfar : (halfFishes 0).any (caught { x := 300, y := 100 }) = false := by
    have h := halfFishes_no_catch 0 0 (by norm_num)
    have e : (100 : ℚ) + 8 * ((0 : ℕ) : ℚ) = 100 := by norm_num
    rw [e] at h
    exact h
  rw [step_frame_no_catch _ _ rfl rfl hfar]
  dsimp only
  rw [map_moveFish_half 0 (by norm_num)]
  have h0 : halfState 0 =
      { gameOver := false, gameStarted := true, score := 0, playerPosition := 300,
        hookPosition := { x := 300, y := 100 }, fishes := halfFishes (0 + 1) } := by
    unfold halfState
    norm_num
  rw [← h0, pressAndFrame_succ_foldl, pressAndFrame_halfState 13 0 (by norm_num)]
  rw [step_arrowDown (halfState (0 + 13)) _ rfl rfl (by unfold halfState; norm_num)]
  unfold Keyboard.step Keyboard.handle
  dsimp only
  rw [render_running _ rfl rfl]
  unfold overState halfState Keyboard.commit Keyboard.depsChanged Keyboard.initEffect
  dsimp only
  rw [map_moveFish_half _ (by norm_num)]
  norm_num [halfFishes, List.filter_replicate, caught, moveFish, sqrtLt]

/-- C8 at its failing input: `overState` is the game-over state the keyboard component
reaches by `catchRun`; `handleRestart` itself keeps the fish list, but the commit of the
restart re-runs the first effect of `fishgame.js`, whose body replaces the fish list by
freshly generated fish. -/
theorem keyboard_restart_regenerates_fishes :
    Keyboard.run (fun _ => 1 / 2) catchRun = overState ∧
    overState.gameStarted = true ∧ overState.gameOver = true ∧
    (handleRestart overState).fishes = overState.fishes ∧
    (Keyboard.step overState (Keyboard.Cmd.restart, fun _ => 0)).fishes =
      generateFishes (fun _ => 0) ∧
    (Keyboard.step overState (Keyboard.Cmd.restart, fun _ => 0)).fishes ≠
      overState.fishes := by
  have hstep := keyboard_restart_step overState (fun _ => 0) rfl
  refine ⟨catchRun_eq_overState, rfl, rfl, rfl, ?_, ?_⟩
  · rw [hstep]
  · rw [hstep]
    intro h
    have h2 := congrArg (fun l => (l.map Fish.x).head?) h
    simp [overState, generateFishes, List.range, List.range.loop] at h2

end FishGame
